import Mathlib

/-!
Verification of the DID range-classification and pricing engine of the
voipnow_bill repository (`e164bill/did.py`, class `DIDHandler`).

The engine's pure logic is embedded shallowly:
  * Python `datetime.date` values become `PyDate` (year/month/day triples,
    compared lexicographically, exactly as Python compares dates);
  * DID rows (dictionaries) become the `DidRec` structure;
  * the `E164_products` catalog rows reachable through
    `load_product_mappings` become an association list of `ProductInfo`,
    whose `did_map` SQL predicate is embedded as a boolean predicate on the
    DID string;
  * the pricing query of `get_product_pricing` (per-column `MAX`/`COALESCE`
    over the owner-specific and global rows) is embedded over an explicit
    list of `PriceRow`s;
  * Python floats carrying money amounts are embedded as rationals (the
    engine only ever copies them or multiplies by 0/1, so no float rounding
    is observable);
  * Python's `sorted(dids, key=lambda x: (x['owner_id'], int(x['did'])))`,
    a stable ascending sort, is embedded as a stable insertion sort on the
    same key; its specification (sortedness, stability, permutation) is
    proved below.
-/

namespace DidBill

/-- Calendar date at the granularity the engine compares dates
(`datetime.date`): year, month, day. -/
structure PyDate where
  year : Nat
  month : Nat
  day : Nat
deriving DecidableEq

/-- Python date ordering: lexicographic on (year, month, day). -/
def dateLt (a b : PyDate) : Bool :=
  decide (a.year < b.year ∨ (a.year = b.year ∧
    (a.month < b.month ∨ (a.month = b.month ∧ a.day < b.day))))

/-- Gregorian leap-year test, as implemented by `datetime`. -/
def isLeap (y : Nat) : Bool :=
  (y % 4 == 0 && y % 100 != 0) || (y % 400 == 0)

/-- Number of days in a month, as implemented by `datetime`. -/
def daysInMonth (y m : Nat) : Nat :=
  if m = 2 then (if isLeap y then 29 else 28)
  else if m = 4 ∨ m = 6 ∨ m = 9 ∨ m = 11 then 30
  else 31

/-- `d.replace(day=1)` on a Python date. -/
def firstOfMonth (d : PyDate) : PyDate := ⟨d.year, d.month, 1⟩

/-- `d - timedelta(days=1)` on a Python date. -/
def predDay (d : PyDate) : PyDate :=
  if 1 < d.day then ⟨d.year, d.month, d.day - 1⟩
  else if 1 < d.month then ⟨d.year, d.month - 1, daysInMonth d.year (d.month - 1)⟩
  else ⟨d.year - 1, 12, 31⟩

/-- `DIDHandler.should_charge_setup` (did.py:181-199).  Python:
`if not mod_date: return False`;
`prior_month = report_month.replace(day=1) - timedelta(days=1)`;
`mod_month = mod_date.date().replace(day=1)`;
`return mod_month == prior_month`.
`mod_date` is embedded at date granularity (the code applies `.date()`
before comparing). -/
def should_charge_setup (mod_date : Option PyDate) (report_month : PyDate) : Bool :=
  match mod_date with
  | none => false
  | some md =>
    let prior_month := predDay (firstOfMonth report_month)
    let mod_month := firstOfMonth md
    decide (mod_month = prior_month)

/-- Numeric value of a decimal digit string, accumulator form. -/
def digitsVal : List Char → Nat → Nat
  | [], acc => acc
  | c :: cs, acc => digitsVal cs (acc * 10 + (c.toNat - '0'.toNat))

/-- Python `int(did)` on a DID digit string. -/
def didVal (s : String) : Nat := digitsVal s.data 0

/-- One row of the `channel_did` query of `get_base_query`:
`did, owner_id, cr_date, mod_date`.  The timestamps are embedded at date
granularity, which is how the engine compares them (`cr_date.date()`,
`mod_date.date()`). -/
structure DidRec where
  did : String
  owner_id : Int
  cr_date : Option PyDate
  mod_date : Option PyDate
deriving DecidableEq

/-- One entry of `DIDHandler.product_mappings` (did.py:95-118): the
`did_map` SQL fragment, evaluated per DID by `determine_did_product`, is
embedded as a boolean predicate on the DID string. -/
structure ProductInfo where
  id : Nat
  did_map : String → Bool
  name : String
  default_setup : ℚ
  default_mrc : ℚ

/-- `product_mappings` is a Python dict (insertion-ordered, unique keys):
embedded as an association list from product code to `ProductInfo`. -/
abbrev Mappings := List (String × ProductInfo)

/-- Dict lookup `product_mappings[code]` / `code in product_mappings`. -/
def mappingFind (m : Mappings) (code : String) : Option ProductInfo :=
  (m.find? (fun p => p.1 == code)).map (·.2)

/-- `product_mappings[code]['name']`; only evaluated on codes present in
the dict. -/
def productName (m : Mappings) (code : String) : String :=
  match mappingFind m code with
  | some info => info.name
  | none => ""

/-- `DIDHandler.determine_did_product` (did.py:120-139): iterate the
product mappings in order and return the first product code whose
`did_map` predicate matches the DID; `None` if no rule matches. -/
def determine_did_product (m : Mappings) (did_str : String) : Option String :=
  (m.find? (fun p => p.2.did_map did_str)).map (·.1)

/-- One row of `E164_products` as seen by the pricing query of
`get_product_pricing`: product id, `reseller_id` (NULL = global row) and
the two cost columns (NULLable). -/
structure PriceRow where
  pid : Nat
  reseller_id : Option Int
  setup : Option ℚ
  mrc : Option ℚ
deriving DecidableEq

/-- SQL `MAX` aggregate over the non-NULL values of a column: `NULL` on an
empty set. -/
def sqlMax : List ℚ → Option ℚ
  | [] => none
  | x :: xs =>
    match sqlMax xs with
    | none => some x
    | some mx => some (max x mx)

/-- `DIDHandler.get_product_pricing` (did.py:141-179).  The SQL computes,
over all `E164_products` rows with the product's id,
`COALESCE(MAX(CASE WHEN reseller_id = owner THEN cost END),
          MAX(CASE WHEN reseller_id IS NULL THEN cost END))`
for the setup and MRC columns; if either coalesced column is NULL the
Python falls back to the mapping's default pricing, and an unknown product
code yields `(0.0, 0.0)`. -/
def get_product_pricing (m : Mappings) (rows : List PriceRow)
    (product_code : String) (owner_id : Int) : ℚ × ℚ :=
  match mappingFind m product_code with
  | none => (0, 0)
  | some info =>
    let ownerRows := rows.filter (fun r => r.pid == info.id && r.reseller_id == some owner_id)
    let globalRows := rows.filter (fun r => r.pid == info.id && r.reseller_id == none)
    let setup_cost := (sqlMax (ownerRows.filterMap (·.setup))).or
      (sqlMax (globalRows.filterMap (·.setup)))
    let mrc_cost := (sqlMax (ownerRows.filterMap (·.mrc))).or
      (sqlMax (globalRows.filterMap (·.mrc)))
    match setup_cost, mrc_cost with
    | some s, some mc => (s, mc)
    | _, _ => (info.default_setup, info.default_mrc)

/-- The sort key of `identify_ranges`: `(x['owner_id'], int(x['did']))`,
compared ascending and lexicographically. -/
def didLe (a b : DidRec) : Bool :=
  decide (a.owner_id < b.owner_id ∨
    (a.owner_id = b.owner_id ∧ didVal a.did ≤ didVal b.did))

/-- Insert into a `didLe`-sorted list, before the first element that is
not strictly smaller (the stable position). -/
def insertSorted (d : DidRec) : List DidRec → List DidRec
  | [] => [d]
  | b :: bs => if didLe d b then d :: b :: bs else b :: insertSorted d bs

/-- `sorted(dids, key=lambda x: (x['owner_id'], int(x['did'])))`
(did.py:276).  Python's `sorted` is a stable ascending sort; it is
embedded as a stable insertion sort on the same key (proved sorted,
stable and a permutation below). -/
def sortDids (l : List DidRec) : List DidRec := l.foldr insertSorted []

/-- The skip test of `identify_ranges` (did.py:279-280):
`if did_entry['cr_date'] and did_entry['cr_date'].date() > self.cutoff_date:
continue`. -/
def skipRec (cutoff : PyDate) (d : DidRec) : Bool :=
  match d.cr_date with
  | none => false
  | some c => dateLt cutoff c

/-- The scan loop of `identify_ranges` (did.py:278-297), returning the
maximal runs it assembles, in emission order.  The first argument is the
remaining (already sorted) input, the second the `current_range` buffer.
A record extends the buffer iff its owner equals the buffer's first
owner and its value is one more than the buffer's last value; otherwise
the buffer is emitted and restarted.  (`identify_ranges` feeds each
emitted run straight to `process_range`; the embedding separates run
assembly from run processing, composing them in `identify_ranges`.) -/
def identifyLoop (cutoff : PyDate) : List DidRec → List DidRec → List (List DidRec)
  | [], cur => if cur.isEmpty then [] else [cur]
  | d :: rest, cur =>
    if skipRec cutoff d then identifyLoop cutoff rest cur
    else
      match cur with
      | [] => identifyLoop cutoff rest [d]
      | first :: tl =>
        if d.owner_id = first.owner_id ∧ didVal d.did = didVal (tl.getLastD first).did + 1 then
          identifyLoop cutoff rest (first :: tl ++ [d])
        else (first :: tl) :: identifyLoop cutoff rest [d]

/-- The runs assembled by `identify_ranges`: sort, then scan. -/
def detectRuns (cutoff : PyDate) (dids : List DidRec) : List (List DidRec) :=
  identifyLoop cutoff (sortDids dids) []

/-- One result dictionary of `process_range` (did.py:327-336, 346-355). -/
structure Item where
  did : String
  range_start : Option String
  range_end : Option String
  did_product : String
  owner_id : Int
  product_name : String
  setup : ℚ
  mrc : ℚ
deriving DecidableEq

/-- `DIDHandler.process_range` (did.py:301-357): classify the run by its
first number; emit one block item when the product is `AU-DID-100` with
length ≥ 100 or `AU-DID-10` with length ≥ 10, else one item per
classifiable member; an unclassifiable first number yields no output. -/
def process_range (m : Mappings) (rows : List PriceRow) (report_date : PyDate) :
    List DidRec → List Item
  | [] => []
  | first :: rest =>
    match determine_did_product m first.did with
    | none => []
    | some product_code =>
      if (product_code = "AU-DID-100" ∧ 100 ≤ (first :: rest).length) ∨
         (product_code = "AU-DID-10" ∧ 10 ≤ (first :: rest).length) then
        let costs := get_product_pricing m rows product_code first.owner_id
        let should_setup := should_charge_setup first.mod_date report_date
        let actual_setup : ℚ := if should_setup then costs.1 else 0
        [{ did := first.did, range_start := some first.did,
           range_end := some (rest.getLastD first).did,
           did_product := product_code, owner_id := first.owner_id,
           product_name := productName m product_code,
           setup := actual_setup, mrc := costs.2 }]
      else
        (first :: rest).filterMap (fun entry =>
          match determine_did_product m entry.did with
          | none => none
          | some code =>
            let costs := get_product_pricing m rows code entry.owner_id
            let sh := should_charge_setup entry.mod_date report_date
            some { did := entry.did, range_start := none, range_end := none,
                   did_product := code, owner_id := entry.owner_id,
                   product_name := productName m code,
                   setup := if sh then costs.1 else 0, mrc := costs.2 })

/-- `DIDHandler.identify_ranges` (did.py:262-299): sort, scan into runs,
process every emitted run in order. -/
def identify_ranges (m : Mappings) (rows : List PriceRow)
    (cutoff report_date : PyDate) (dids : List DidRec) : List Item :=
  (detectRuns cutoff dids).flatMap (process_range m rows report_date)

/-- The block test of `process_range` on a run, as an executable
predicate. -/
def is_block_range (m : Mappings) (l : List DidRec) : Bool :=
  match l with
  | [] => false
  | first :: _ =>
    match determine_did_product m first.did with
    | none => false
    | some c => (c == "AU-DID-100" && decide (100 ≤ l.length)) ||
                (c == "AU-DID-10" && decide (10 ≤ l.length))

/-- Adjacency within a run: the next value is the previous value plus 1. -/
def adjStep (a b : DidRec) : Prop := didVal b.did = didVal a.did + 1

/-- A well-formed run: nonempty, numerically contiguous, single owner. -/
def GoodRun : List DidRec → Prop
  | [] => False
  | f :: tl => List.Chain' adjStep (f :: tl) ∧ ∀ x ∈ f :: tl, x.owner_id = f.owner_id

/-- A record without its modification date (the data `process_range` may
use for everything except setup-fee timing). -/
def stripMod (d : DidRec) : String × Int × Option PyDate :=
  (d.did, d.owner_id, d.cr_date)

/-- Modelled from the spec: the engine counts numbers matching no
classification rule in a "skipped" diagnostic.  No such counter exists in
the copy of the engine under src/ (`process_range` silently drops the
numbers); the spec documents the diagnostic for the repository's other
engine variant, which is not under src/.  It is modelled as the count of
run members whose DID matches no rule. -/
def skipped_diagnostic (m : Mappings) (entries : List DidRec) : Nat :=
  entries.countP (fun x => (determine_did_product m x.did).isNone)

/-- Modelled from the spec: the `did_map` classification patterns are
database data (rows of `E164_products`), not source code under src/.  Per
the spec, a rule is a prefix + exact-length predicate, evaluated in fixed
priority order, most specific first.  This rule matches 8-digit numbers of
the 61-prefixed family aligned to a 100 boundary. -/
def au100Map (s : String) : Bool :=
  s.data.length == 8 && "61".data.isPrefixOf s.data && didVal s % 100 == 0

/-- Modelled from the spec: as `au100Map`, for the 10-aligned family. -/
def au10Map (s : String) : Bool :=
  s.data.length == 8 && "61".data.isPrefixOf s.data && didVal s % 10 == 0

/-- Modelled from the spec: the generic catch-all rule of the family. -/
def au1Map (s : String) : Bool :=
  s.data.length == 8 && "61".data.isPrefixOf s.data

/-- Modelled from the spec: the product catalog (`product_mappings`), with
rules in priority order, most specific first, and the rule's built-in
default setup/recurring costs. -/
def specMappings : Mappings :=
  [("AU-DID-100", ⟨1, au100Map, "AU DID 100 Number Block", 100, 50⟩),
   ("AU-DID-10", ⟨2, au10Map, "AU DID 10 Number Block", 30, 10⟩),
   ("AU-DID-1", ⟨3, au1Map, "AU DID Single Number", 5, 2⟩)]

/-- A DID record with neither creation nor modification date. -/
def mkRec (s : String) (o : Int) : DidRec := ⟨s, o, none, none⟩

/-- Ten consecutive numbers starting on a 100 boundary, owner 7: the
spec's 10-block shape whose first number is also 100-aligned. -/
def c2run : List DidRec :=
  [mkRec "61130000" 7, mkRec "61130001" 7, mkRec "61130002" 7,
   mkRec "61130003" 7, mkRec "61130004" 7, mkRec "61130005" 7,
   mkRec "61130006" 7, mkRec "61130007" 7, mkRec "61130008" 7,
   mkRec "61130009" 7]

/-- A catalog of the spec's rule shape (exact-length predicates) with an
8-digit product and a 9-digit product; used to exhibit inputs on which
output depends on input order. -/
def catX : Mappings :=
  [("DID-8", ⟨1, fun s => s.data.length == 8, "Eight Digit", 5, 2⟩),
   ("DID-9", ⟨2, fun s => s.data.length == 9, "Nine Digit", 6, 3⟩)]

/-- Two records with the same owner and the same numeric value
(`int("061130001") == int("61130001")`) but different DID strings. -/
def recA : DidRec := mkRec "61130001" 1

/-- See `recA`. -/
def recB : DidRec := mkRec "061130001" 1

/-- Concrete pricing-catalog entry for the pricing witness. -/
def infoW : ProductInfo := ⟨2, fun _ => true, "Ten Block", 50, 5⟩

/-- Concrete one-product catalog for the pricing witness. -/
def mW : Mappings := [("AU-DID-10", infoW)]

/-- An owner-specific override row for product id 2, owner 7. -/
def rOwnerW : PriceRow := ⟨2, some 7, some 10, some 11⟩

/-- A global (owner = NULL) override row for product id 2. -/
def rGlobalW : PriceRow := ⟨2, none, some 30, some 31⟩

/-- A run with one unclassifiable number (no rule matches a 99-prefixed
string) and one classifiable number. -/
def c7entries : List DidRec := [mkRec "99990001" 3, mkRec "61130005" 3]

/-- The unclassifiable member of `c7entries`. -/
def recU : DidRec := mkRec "99990001" 3

/-- A ten-run starting at a 10-aligned (not 100-aligned) number. -/
def c10first : DidRec := mkRec "61130010" 7

/-- Tail of the ten-run, no modification dates. -/
def c10rest1 : List DidRec :=
  [mkRec "61130011" 7, mkRec "61130012" 7, mkRec "61130013" 7,
   mkRec "61130014" 7, mkRec "61130015" 7, mkRec "61130016" 7,
   mkRec "61130017" 7, mkRec "61130018" 7, mkRec "61130019" 7]

/-- Same tail with a modification date on its first member. -/
def c10rest2 : List DidRec :=
  [⟨"61130011", 7, none, some ⟨2024, 3, 15⟩⟩, mkRec "61130012" 7,
   mkRec "61130013" 7, mkRec "61130014" 7, mkRec "61130015" 7,
   mkRec "61130016" 7, mkRec "61130017" 7, mkRec "61130018" 7,
   mkRec "61130019" 7]

/-- A record created exactly on the cutoff date. -/
def recCut : DidRec := ⟨"61130001", 1, some ⟨2024, 5, 1⟩, none⟩

/-- A record with no creation date. -/
def recNoCr : DidRec := mkRec "61130002" 1

theorem daysInMonth_ge (y m : Nat) : 28 ≤ daysInMonth y m := by
  unfold daysInMonth
  split
  · split <;> omega
  · split <;> omega

theorem should_charge_setup_false (md : Option PyDate) (r : PyDate) :
    should_charge_setup md r = false := by
  unfold should_charge_setup
  cases md with
  | none => rfl
  | some m =>
    simp only [decide_eq_false_iff_not]
    intro h
    have hday : (firstOfMonth m).day = (predDay (firstOfMonth r)).day := by rw [h]
    have h28 : 28 ≤ daysInMonth r.year (r.month - 1) := daysInMonth_ge _ _
    simp only [firstOfMonth, predDay] at hday
    split at hday <;> [skip; split at hday] <;> dsimp only at hday <;> omega

/-- C1: the spec's setup-fee timing rule demands that a record modified
2024-03-15 is charged setup in the April-2024 run; the code instead
compares the first day of the modification month with the *last* day of
the month preceding the report month, two dates that can never coincide,
so `should_charge_setup` returns `false` on the spec's own example — and
on every other input. -/
theorem setup_fee_never_charged :
    should_charge_setup (some ⟨2024, 3, 15⟩) ⟨2024, 4, 1⟩ = false ∧
    ∀ md r, should_charge_setup md r = false :=
  ⟨should_charge_setup_false _ _, fun md r => should_charge_setup_false md r⟩

/-- C3: three-tier pricing fallback.  With the pricing table in the shape
the spec's `PriceOverride` model describes — at most one override row per
(product, owner) and per (product, global), carrying non-NULL costs — the
resolution is: the owner-specific row's costs if such a row exists, else
the global row's costs if one exists, else the mapping's default costs.
Each tier wins outright (the result is one row's cost pair or the default
pair, never a mix), and the function always returns a cost pair. -/
theorem pricing_three_tier_fallback (m : Mappings) (rows : List PriceRow)
    (code : String) (owner : Int) (info : ProductInfo)
    (hm : mappingFind m code = some info) :
    (∀ r s mc,
      rows.filter (fun r => r.pid == info.id && r.reseller_id == some owner) = [r] →
      r.setup = some s → r.mrc = some mc →
      get_product_pricing m rows code owner = (s, mc)) ∧
    (∀ g s mc,
      rows.filter (fun r => r.pid == info.id && r.reseller_id == some owner) = [] →
      rows.filter (fun r => r.pid == info.id && r.reseller_id == none) = [g] →
      g.setup = some s → g.mrc = some mc →
      get_product_pricing m rows code owner = (s, mc)) ∧
    (rows.filter (fun r => r.pid == info.id && r.reseller_id == some owner) = [] →
      rows.filter (fun r => r.pid == info.id && r.reseller_id == none) = [] →
      get_product_pricing m rows code owner = (info.default_setup, info.default_mrc)) := by
  refine ⟨?_, ?_, ?_⟩
  · intro r s mc hf hs hmc
    unfold get_product_pricing
    rw [hm]
    simp only [hf, List.filterMap, hs, hmc, sqlMax, Option.or]
  · intro g s mc hf hg hs hmc
    unfold get_product_pricing
    rw [hm]
    simp only [hf, hg, List.filterMap, hs, hmc, sqlMax, Option.or]
  · intro hf hg
    unfold get_product_pricing
    rw [hm]
    simp only [hf, hg, List.filterMap, sqlMax, Option.or]

/-- Witness for `pricing_three_tier_fallback`: each tier at concrete
data — owner row present gives (10, 11); only the global row gives
(30, 31); no rows give the defaults (50, 5). -/
theorem pricing_three_tier_fallback_witness :
    (mappingFind mW "AU-DID-10" = some infoW ∧
      [rOwnerW, rGlobalW].filter
        (fun r => r.pid == infoW.id && r.reseller_id == some 7) = [rOwnerW] ∧
      [rGlobalW].filter
        (fun r => r.pid == infoW.id && r.reseller_id == some 7) = [] ∧
      [rGlobalW].filter
        (fun r => r.pid == infoW.id && r.reseller_id == none) = [rGlobalW]) ∧
    get_product_pricing mW [rOwnerW, rGlobalW] "AU-DID-10" 7 = (10, 11) ∧
    get_product_pricing mW [rGlobalW] "AU-DID-10" 7 = (30, 31) ∧
    get_product_pricing mW [] "AU-DID-10" 7 = (50, 5) :=
  ⟨⟨rfl, by decide, by decide, by decide⟩,
    (pricing_three_tier_fallback mW [rOwnerW, rGlobalW] "AU-DID-10" 7 infoW rfl).1
      rOwnerW 10 11 (by decide) rfl rfl,
    (pricing_three_tier_fallback mW [rGlobalW] "AU-DID-10" 7 infoW rfl).2.1
      rGlobalW 30 31 (by decide) (by decide) rfl rfl,
    (pricing_three_tier_fallback mW [] "AU-DID-10" 7 infoW rfl).2.2 rfl rfl⟩

theorem didLe_trans (a b c : DidRec) (h1 : didLe a b = true) (h2 : didLe b c = true) :
    didLe a c = true := by
  simp only [didLe, decide_eq_true_eq] at *
  omega

theorem didLe_total (a b : DidRec) : didLe a b = true ∨ didLe b a = true := by
  simp only [didLe, decide_eq_true_eq]
  omega

theorem didLe_key_eq (a b : DidRec) (h1 : didLe a b = true) (h2 : didLe b a = true) :
    a.owner_id = b.owner_id ∧ didVal a.did = didVal b.did := by
  simp only [didLe, decide_eq_true_eq] at *
  omega

theorem insertSorted_perm (d : DidRec) (l : List DidRec) :
    (insertSorted d l).Perm (d :: l) := by
  induction l with
  | nil => exact List.Perm.refl _
  | cons b bs ih =>
    unfold insertSorted
    split
    · exact List.Perm.refl _
    · exact (ih.cons b).trans (List.Perm.swap d b bs)

theorem sortDids_perm (l : List DidRec) : (sortDids l).Perm l := by
  induction l with
  | nil => exact List.Perm.refl _
  | cons a l ih => exact (insertSorted_perm a (sortDids l)).trans (ih.cons a)

theorem insertSorted_pairwise (d : DidRec) (l : List DidRec)
    (h : l.Pairwise (fun a b => didLe a b = true)) :
    (insertSorted d l).Pairwise (fun a b => didLe a b = true) := by
  induction l with
  | nil => simp [insertSorted]
  | cons b bs ih =>
    obtain ⟨hb, hbs⟩ := List.pairwise_cons.1 h
    by_cases hdb : didLe d b = true
    · rw [insertSorted, if_pos hdb]
      refine List.pairwise_cons.2 ⟨?_, h⟩
      intro x hx
      rcases List.mem_cons.1 hx with rfl | hx
      · exact hdb
      · exact didLe_trans d b x hdb (hb x hx)
    · rw [insertSorted, if_neg hdb]
      refine List.pairwise_cons.2 ⟨?_, ih hbs⟩
      intro x hx
      rcases List.mem_cons.1 ((insertSorted_perm d bs).mem_iff.1 hx) with h' | hx
      · rw [h']
        exact (didLe_total d b).resolve_left hdb
      · exact hb x hx

theorem sortDids_pairwise (l : List DidRec) :
    (sortDids l).Pairwise (fun a b => didLe a b = true) := by
  induction l with
  | nil => exact List.Pairwise.nil
  | cons a l ih => exact insertSorted_pairwise a (sortDids l) ih

theorem insertSorted_front (d : DidRec) (l : List DidRec)
    (h : ∀ x ∈ l, didLe d x = true) : insertSorted d l = d :: l := by
  cases l with
  | nil => rfl
  | cons b bs => rw [insertSorted, if_pos (h b (List.mem_cons_self b bs))]

theorem filter_insertSorted_pos (p : DidRec → Bool) (d : DidRec) (l : List DidRec)
    (hp : p d = true) (h : l.Pairwise (fun a b => didLe a b = true)) :
    (insertSorted d l).filter p = insertSorted d (l.filter p) := by
  induction l with
  | nil => simp [insertSorted, hp]
  | cons b bs ih =>
    obtain ⟨hb, hbs⟩ := List.pairwise_cons.1 h
    by_cases hdb : didLe d b = true
    · by_cases hpb : p b = true
      · simp [insertSorted, hdb, List.filter_cons, hp, hpb]
      · have hfront : insertSorted d (bs.filter p) = d :: bs.filter p :=
          insertSorted_front d _ (fun x hx =>
            didLe_trans d b x hdb (hb x (List.mem_of_mem_filter hx)))
        simp [insertSorted, hdb, List.filter_cons, hp, hpb, hfront]
    · by_cases hpb : p b = true
      · simp [insertSorted, hdb, List.filter_cons, hpb, ih hbs]
      · simp [insertSorted, hdb, List.filter_cons, hpb, ih hbs]

theorem filter_insertSorted_neg (p : DidRec → Bool) (d : DidRec) (l : List DidRec)
    (hp : p d = false) : (insertSorted d l).filter p = l.filter p := by
  induction l with
  | nil => simp [insertSorted, hp]
  | cons b bs ih =>
    by_cases hdb : didLe d b = true
    · simp [insertSorted, hdb, List.filter_cons, hp]
    · simp [insertSorted, hdb, List.filter_cons, ih]

theorem filter_sortDids (p : DidRec → Bool) (l : List DidRec) :
    (sortDids l).filter p = sortDids (l.filter p) := by
  induction l with
  | nil => rfl
  | cons a l ih =>
    show (insertSorted a (sortDids l)).filter p = sortDids ((a :: l).filter p)
    by_cases hpa : p a = true
    · rw [filter_insertSorted_pos p a _ hpa (sortDids_pairwise l), ih, List.filter_cons,
        if_pos hpa]
      rfl
    · rw [filter_insertSorted_neg p a _ (by simpa using hpa), ih, List.filter_cons,
        if_neg (by simpa using hpa)]

theorem getLast?_cons_getLastD {α : Type} (a : α) (l : List α) :
    (a :: l).getLast? = some (l.getLastD a) := by
  induction l generalizing a with
  | nil => rfl
  | cons b bs ih => rw [List.getLast?_cons_cons, ih, List.getLastD_cons]

theorem goodRun_singleton (d : DidRec) : GoodRun [d] := by
  refine ⟨List.chain'_singleton d, ?_⟩
  intro x hx
  rcases List.mem_singleton.1 hx with rfl
  rfl

theorem goodRun_extend (first : DidRec) (tl : List DidRec) (d : DidRec)
    (h : GoodRun (first :: tl))
    (ho : d.owner_id = first.owner_id)
    (hv : didVal d.did = didVal (tl.getLastD first).did + 1) :
    GoodRun (first :: tl ++ [d]) := by
  obtain ⟨hchain, howner⟩ := h
  constructor
  · show List.Chain' adjStep ((first :: tl) ++ [d])
    refine List.chain'_append.2 ⟨hchain, List.chain'_singleton d, ?_⟩
    intro x hx y hy
    rw [getLast?_cons_getLastD] at hx
    simp only [Option.mem_def, Option.some.injEq] at hx
    simp only [List.head?_cons, Option.mem_def, Option.some.injEq] at hy
    subst hx
    subst hy
    exact hv
  · intro x hx
    rcases List.mem_cons.1 hx with rfl | hx
    · rfl
    · rcases List.mem_append.1 hx with hx | hx
      · exact howner x (List.mem_cons_of_mem first hx)
      · rcases List.mem_singleton.1 hx with rfl
        exact ho

theorem identifyLoop_good (cutoff : PyDate) (l : List DidRec) :
    ∀ cur, (cur = [] ∨ GoodRun cur) → ∀ r ∈ identifyLoop cutoff l cur, GoodRun r := by
  induction l with
  | nil =>
    intro cur hcur r hr
    cases cur with
    | nil => simp [identifyLoop] at hr
    | cons c cs =>
      simp [identifyLoop] at hr
      subst hr
      exact hcur.resolve_left (by simp)
  | cons d rest ih =>
    intro cur hcur r hr
    by_cases hskip : skipRec cutoff d = true
    · exact ih cur hcur r (by simpa [identifyLoop, hskip] using hr)
    · cases cur with
      | nil =>
        exact ih [d] (Or.inr (goodRun_singleton d)) r
          (by simpa [identifyLoop, hskip] using hr)
      | cons first tl =>
        have hgood : GoodRun (first :: tl) := hcur.resolve_left (by simp)
        by_cases hext : d.owner_id = first.owner_id ∧
            didVal d.did = didVal (tl.getLastD first).did + 1
        · exact ih _ (Or.inr (goodRun_extend first tl d hgood hext.1 hext.2)) r
            (by simpa [identifyLoop, hskip, hext, -List.getLastD_eq_getLast?] using hr)
        · have hr' : r = first :: tl ∨ r ∈ identifyLoop cutoff rest [d] := by
            simpa [identifyLoop, hskip, hext, -List.getLastD_eq_getLast?] using hr
          rcases hr' with rfl | hr'
          · exact hgood
          · exact ih [d] (Or.inr (goodRun_singleton d)) r hr'

theorem identifyLoop_flatten (cutoff : PyDate) (l : List DidRec) :
    ∀ cur, (identifyLoop cutoff l cur).flatten =
      cur ++ l.filter (fun x => !skipRec cutoff x) := by
  induction l with
  | nil => intro cur; cases cur <;> simp [identifyLoop]
  | cons d rest ih =>
    intro cur
    by_cases hskip : skipRec cutoff d = true
    · simp [identifyLoop, hskip, ih, List.filter_cons]
    · cases cur with
      | nil => simp [identifyLoop, hskip, ih, List.filter_cons]
      | cons first tl =>
        by_cases hext : d.owner_id = first.owner_id ∧
            didVal d.did = didVal (tl.getLastD first).did + 1
        · simp [identifyLoop, hskip, hext, ih, List.filter_cons,
            -List.getLastD_eq_getLast?]
        · simp [identifyLoop, hskip, hext, ih, List.filter_cons,
            -List.getLastD_eq_getLast?]

theorem identifyLoop_filter (cutoff : PyDate) (l : List DidRec) :
    ∀ cur, identifyLoop cutoff l cur =
      identifyLoop cutoff (l.filter (fun x => !skipRec cutoff x)) cur := by
  induction l with
  | nil => intro cur; rfl
  | cons d rest ih =>
    intro cur
    by_cases hskip : skipRec cutoff d = true
    · rw [show (d :: rest).filter (fun x => !skipRec cutoff x) =
        rest.filter (fun x => !skipRec cutoff x) by simp [List.filter_cons, hskip]]
      rw [show identifyLoop cutoff (d :: rest) cur = identifyLoop cutoff rest cur by
        simp [identifyLoop, hskip]]
      exact ih cur
    · rw [show (d :: rest).filter (fun x => !skipRec cutoff x) =
        d :: rest.filter (fun x => !skipRec cutoff x) by simp [List.filter_cons, hskip]]
      cases cur with
      | nil =>
        simp only [identifyLoop, hskip, Bool.false_eq_true, if_false]
        exact ih [d]
      | cons first tl =>
        by_cases hext : d.owner_id = first.owner_id ∧
            didVal d.did = didVal (tl.getLastD first).did + 1
        · simp only [identifyLoop, hskip, Bool.false_eq_true, if_false, hext, if_true]
          exact ih _
        · simp only [identifyLoop, hskip, Bool.false_eq_true, if_false, hext, if_false]
          rw [ih [d]]

/-- C4: skipped (post-cutoff) records are simply absent from range
detection: running the detector on the input equals running it on the
input with the skipped records removed, and no member of any emitted run
is a skipped record — so a run is only broken by a numeric gap or owner
change among the non-skipped records themselves, never by the mere
presence of a skipped record in the scan. -/
theorem skipped_records_are_simply_absent (cutoff : PyDate) (dids : List DidRec) :
    detectRuns cutoff dids =
      detectRuns cutoff (dids.filter (fun d => !skipRec cutoff d)) ∧
    ∀ r ∈ detectRuns cutoff dids, ∀ d ∈ r, skipRec cutoff d = false := by
  constructor
  · show identifyLoop cutoff (sortDids dids) [] = _
    rw [identifyLoop_filter cutoff (sortDids dids) [], filter_sortDids]
    rfl
  · intro r hr d hd
    have hmem : d ∈ (detectRuns cutoff dids).flatten := List.mem_flatten.2 ⟨r, hr, hd⟩
    rw [show detectRuns cutoff dids = identifyLoop cutoff (sortDids dids) [] from rfl,
      identifyLoop_flatten, List.nil_append] at hmem
    have := (List.mem_filter.1 hmem).2
    simpa using this

/-- Witness for `skipped_records_are_simply_absent`: a future-dated record
between 100 and 102; the detector splits at the genuine numeric gap the
removal leaves, and the skipped record is in no run. -/
theorem skipped_records_are_simply_absent_witness :
    ([mkRec "100" 1] ∈ detectRuns ⟨2024, 5, 1⟩
        [mkRec "100" 1, ⟨"101", 1, some ⟨2024, 6, 1⟩, none⟩, mkRec "102" 1] ∧
      mkRec "100" 1 ∈ [mkRec "100" 1]) ∧
    skipRec ⟨2024, 5, 1⟩ (mkRec "100" 1) = false :=
  ⟨⟨by decide, by decide⟩,
    (skipped_records_are_simply_absent ⟨2024, 5, 1⟩
        [mkRec "100" 1, ⟨"101", 1, some ⟨2024, 6, 1⟩, none⟩, mkRec "102" 1]).2
      [mkRec "100" 1] (by decide) (mkRec "100" 1) (by decide)⟩

/-- C5: every run assembled by the detector is numerically contiguous
(consecutive members' values differ by exactly 1) with a single owner, and
the concatenation of all runs is a permutation of the non-skipped input
records — each non-skipped record lands in exactly one run, no
duplications, no losses. -/
theorem range_contiguity_and_partition (cutoff : PyDate) (dids : List DidRec) :
    (∀ r ∈ detectRuns cutoff dids,
      List.Chain' adjStep r ∧ ∀ a ∈ r, ∀ b ∈ r, a.owner_id = b.owner_id) ∧
    ((detectRuns cutoff dids).flatten).Perm
      (dids.filter (fun d => !skipRec cutoff d)) := by
  constructor
  · intro r hr
    have hg := identifyLoop_good cutoff (sortDids dids) [] (Or.inl rfl) r hr
    cases r with
    | nil => exact absurd hg (by simp [GoodRun])
    | cons f tl =>
      obtain ⟨hc, ho⟩ := hg
      exact ⟨hc, fun a ha b hb => (ho a ha).trans (ho b hb).symm⟩
  · rw [show detectRuns cutoff dids = identifyLoop cutoff (sortDids dids) [] from rfl,
      identifyLoop_flatten, List.nil_append]
    exact List.Perm.filter _ (sortDids_perm dids)

/-- Witness for `range_contiguity_and_partition`: the two-record run
[61130001, 61130002] is detected and is contiguous. -/
theorem range_contiguity_and_partition_witness :
    ([mkRec "61130001" 1, mkRec "61130002" 1] ∈
      detectRuns ⟨2024, 5, 1⟩ [mkRec "61130002" 1, mkRec "61130001" 1]) ∧
    List.Chain' adjStep [mkRec "61130001" 1, mkRec "61130002" 1] :=
  ⟨by decide,
    ((range_contiguity_and_partition ⟨2024, 5, 1⟩
        [mkRec "61130002" 1, mkRec "61130001" 1]).1
      [mkRec "61130001" 1, mkRec "61130002" 1] (by decide)).1⟩

theorem sorted_perm_eq : ∀ (l₁ l₂ : List DidRec), l₁.Perm l₂ →
    l₁.Pairwise (fun a b => didLe a b = true) →
    l₂.Pairwise (fun a b => didLe a b = true) →
    l₁.Pairwise (fun a b => (a.owner_id, didVal a.did) ≠ (b.owner_id, didVal b.did)) →
    l₁ = l₂ := by
  intro l₁
  induction l₁ with
  | nil => intro l₂ h _ _ _; exact h.nil_eq
  | cons a t₁ ih =>
    intro l₂ h hs₁ hs₂ hd
    cases l₂ with
    | nil => exact absurd h.symm.nil_eq (by simp)
    | cons b t₂ =>
      by_cases hab : a = b
      · subst hab
        rw [ih t₂ h.cons_inv (List.pairwise_cons.1 hs₁).2 (List.pairwise_cons.1 hs₂).2
          (List.pairwise_cons.1 hd).2]
      · exfalso
        have ha2 : a ∈ t₂ := by
          rcases List.mem_cons.1 (h.mem_iff.1 (List.mem_cons_self a t₁)) with h' | h'
          · exact absurd h' hab
          · exact h'
        have hb1 : b ∈ t₁ := by
          rcases List.mem_cons.1 (h.symm.mem_iff.1 (List.mem_cons_self b t₂)) with h' | h'
          · exact absurd h'.symm hab
          · exact h'
        have hkey := didLe_key_eq a b ((List.pairwise_cons.1 hs₁).1 b hb1)
          ((List.pairwise_cons.1 hs₂).1 a ha2)
        exact (List.pairwise_cons.1 hd).1 b hb1 (by rw [hkey.1, hkey.2])

/-- C6 (amended): range detection and classification are insensitive to
input order *provided no two records share the sort key
(ownerId, numeric value)*: for any permutation of such an input,
`identify_ranges` produces identical output, because the stable sort then
has a unique result. -/
theorem determinism_of_identify_ranges (m : Mappings) (rows : List PriceRow)
    (cutoff rd : PyDate) (l l' : List DidRec)
    (hperm : l.Perm l')
    (hkeys : l.Pairwise
      (fun a b => (a.owner_id, didVal a.did) ≠ (b.owner_id, didVal b.did))) :
    identify_ranges m rows cutoff rd l = identify_ranges m rows cutoff rd l' := by
  have hsort : sortDids l = sortDids l' :=
    sorted_perm_eq (sortDids l) (sortDids l')
      ((sortDids_perm l).trans (hperm.trans (sortDids_perm l').symm))
      (sortDids_pairwise l) (sortDids_pairwise l')
      (hkeys.perm (sortDids_perm l).symm (fun h => Ne.symm h))
  unfold identify_ranges detectRuns
  rw [hsort]

/-- C6 (counterexample): two records with the same owner and the same
numeric value but different DID strings ("61130001" and "061130001").
They tie on the sort key, so the stable sort preserves their input order
and the two permutations of the same input set yield different output
lists. -/
theorem order_sensitivity_on_shared_sort_keys :
    ([recA, recB].Perm [recB, recA]) ∧
    identify_ranges catX [] ⟨2024, 1, 1⟩ ⟨2024, 1, 1⟩ [recA, recB] ≠
      identify_ranges catX [] ⟨2024, 1, 1⟩ ⟨2024, 1, 1⟩ [recB, recA] :=
  ⟨List.Perm.swap recB recA [], by decide⟩

/-- Witness for `determinism_of_identify_ranges`: two distinct-key records
in both orders give identical output. -/
theorem determinism_of_identify_ranges_witness :
    ([recA, recNoCr].Perm [recNoCr, recA] ∧
      [recA, recNoCr].Pairwise
        (fun a b => (a.owner_id, didVal a.did) ≠ (b.owner_id, didVal b.did))) ∧
    identify_ranges specMappings [] ⟨2024, 1, 1⟩ ⟨2024, 1, 1⟩ [recA, recNoCr] =
      identify_ranges specMappings [] ⟨2024, 1, 1⟩ ⟨2024, 1, 1⟩ [recNoCr, recA] :=
  ⟨⟨List.Perm.swap recNoCr recA [], by decide⟩,
    determinism_of_identify_ranges specMappings [] ⟨2024, 1, 1⟩ ⟨2024, 1, 1⟩
      [recA, recNoCr] [recNoCr, recA] (List.Perm.swap recNoCr recA []) (by decide)⟩

/-- C8 (counterexample): a record created exactly on the cutoff date is
*not* excluded: the skip test is `cr_date.date() > cutoff`, so the
equal-date record passes it and appears in the detector's output run,
while the claim says the cutoff is an exclusive bound under which it
would be excluded. -/
theorem cutoff_equal_date_processed :
    recCut.cr_date = some ⟨2024, 5, 1⟩ ∧
    skipRec ⟨2024, 5, 1⟩ recCut = false ∧
    detectRuns ⟨2024, 5, 1⟩ [recCut] = [[recCut]] := by
  refine ⟨rfl, by decide, by decide⟩

/-- C8 (amended): the cutoff is an *inclusive* upper bound at date
granularity: a record participates in the run iff its creation date is
absent or not strictly later than the cutoff date, and the detector's
runs contain exactly the records passing that test. -/
theorem cutoff_inclusive_upper_bound (cutoff : PyDate) (dids : List DidRec) :
    ((detectRuns cutoff dids).flatten).Perm
      (dids.filter (fun d => !skipRec cutoff d)) ∧
    ∀ d : DidRec, skipRec cutoff d = false ↔
      (d.cr_date = none ∨ ∃ c, d.cr_date = some c ∧ dateLt cutoff c = false) := by
  constructor
  · rw [show detectRuns cutoff dids = identifyLoop cutoff (sortDids dids) [] from rfl,
      identifyLoop_flatten, List.nil_append]
    exact List.Perm.filter _ (sortDids_perm dids)
  · intro d
    unfold skipRec
    cases hc : d.cr_date with
    | none => simp
    | some c => simp

/-- C9: a record whose creation date is absent is never skipped: it passes
the skip test for every cutoff date and lands in the detector's output. -/
theorem null_cr_date_never_skipped (cutoff : PyDate) (dids : List DidRec)
    (d : DidRec) (hmem : d ∈ dids) (hcr : d.cr_date = none) :
    skipRec cutoff d = false ∧ d ∈ (detectRuns cutoff dids).flatten := by
  have hskip : skipRec cutoff d = false := by unfold skipRec; rw [hcr]
  refine ⟨hskip, ?_⟩
  rw [show detectRuns cutoff dids = identifyLoop cutoff (sortDids dids) [] from rfl,
    identifyLoop_flatten, List.nil_append]
  exact List.mem_filter.2 ⟨(sortDids_perm dids).mem_iff.2 hmem, by simp [hskip]⟩

/-- Witness for `null_cr_date_never_skipped`: a dateless record with an
extreme cutoff still participates. -/
theorem null_cr_date_never_skipped_witness :
    (recNoCr ∈ [recNoCr] ∧ recNoCr.cr_date = none) ∧
    skipRec ⟨1970, 1, 1⟩ recNoCr = false ∧
    recNoCr ∈ (detectRuns ⟨1970, 1, 1⟩ [recNoCr]).flatten :=
  ⟨⟨by decide, rfl⟩,
    null_cr_date_never_skipped ⟨1970, 1, 1⟩ [recNoCr] recNoCr (by decide) rfl⟩

theorem classify_au100_iff (s : String) :
    determine_did_product specMappings s = some "AU-DID-100" ↔
      (s.data.length = 8 ∧ "61".data.isPrefixOf s.data = true ∧ didVal s % 100 = 0) := by
  by_cases h1 : au100Map s = true
  · have hres : determine_did_product specMappings s = some "AU-DID-100" := by
      simp [determine_did_product, specMappings, List.find?, h1]
    simp only [au100Map, Bool.and_eq_true, beq_iff_eq] at h1
    exact iff_of_true hres ⟨h1.1.1, h1.1.2, h1.2⟩
  · have hres : determine_did_product specMappings s ≠ some "AU-DID-100" := by
      by_cases h2 : au10Map s = true
      · simp [determine_did_product, specMappings, List.find?, h1, h2]
      · by_cases h3 : au1Map s = true
        · simp [determine_did_product, specMappings, List.find?, h1, h2, h3]
        · simp [determine_did_product, specMappings, List.find?, h1, h2, h3]
    refine iff_of_false hres ?_
    intro hr
    apply h1
    simp only [au100Map, Bool.and_eq_true, beq_iff_eq]
    exact ⟨⟨hr.1, hr.2.1⟩, hr.2.2⟩

theorem classify_au10_iff (s : String) :
    determine_did_product specMappings s = some "AU-DID-10" ↔
      (s.data.length = 8 ∧ "61".data.isPrefixOf s.data = true ∧ didVal s % 10 = 0 ∧
        ¬ didVal s % 100 = 0) := by
  by_cases h1 : au100Map s = true
  · have hres : determine_did_product specMappings s = some "AU-DID-100" := by
      simp [determine_did_product, specMappings, List.find?, h1]
    simp only [au100Map, Bool.and_eq_true, beq_iff_eq] at h1
    refine iff_of_false (by simp [hres]) ?_
    intro hr
    exact hr.2.2.2 h1.2
  · by_cases h2 : au10Map s = true
    · have hres : determine_did_product specMappings s = some "AU-DID-10" := by
        simp [determine_did_product, specMappings, List.find?, h1, h2]
      simp only [au10Map, Bool.and_eq_true, beq_iff_eq] at h2
      refine iff_of_true hres ⟨h2.1.1, h2.1.2, h2.2, ?_⟩
      intro h100
      apply h1
      simp only [au100Map, Bool.and_eq_true, beq_iff_eq]
      exact ⟨⟨h2.1.1, h2.1.2⟩, h100⟩
    · have hres : determine_did_product specMappings s ≠ some "AU-DID-10" := by
        by_cases h3 : au1Map s = true
        · simp [determine_did_product, specMappings, List.find?, h1, h2, h3]
        · simp [determine_did_product, specMappings, List.find?, h1, h2, h3]
      refine iff_of_false hres ?_
      intro hr
      apply h2
      simp only [au10Map, Bool.and_eq_true, beq_iff_eq]
      exact ⟨⟨hr.1, hr.2.1⟩, hr.2.2.1⟩

/-- C2 (amended): `process_range` emits a single block item (range
endpoints populated) exactly when the *classification* of the run's first
number is the 100-block product and the run length is at least 100, or it
is the 10-block product and the length is at least 10.  Under the
spec-modelled catalog, the first number classifies to the 100-block
product exactly when it is an in-family 8-digit number divisible by 100,
and to the 10-block product exactly when it is divisible by 10 but *not*
by 100 — so a run of 10 to 99 numbers whose first number sits on a 100
boundary is emitted number-by-number, not as a block.  A run whose first
number matches no rule yields no items at all, and every other non-block
run is emitted as one null-range item per classifiable member, in order,
each carrying its own classification. -/
theorem block_emission_rule :
    (∀ (rd : PyDate) (f : DidRec) (rest : List DidRec),
      (∃ it, process_range specMappings [] rd (f :: rest) = [it] ∧
        it.range_start = some f.did ∧ it.range_end = some (rest.getLastD f).did) ↔
      ((determine_did_product specMappings f.did = some "AU-DID-100" ∧
          100 ≤ (f :: rest).length) ∨
       (determine_did_product specMappings f.did = some "AU-DID-10" ∧
          10 ≤ (f :: rest).length))) ∧
    (∀ s, determine_did_product specMappings s = some "AU-DID-100" ↔
      (s.data.length = 8 ∧ "61".data.isPrefixOf s.data = true ∧ didVal s % 100 = 0)) ∧
    (∀ s, determine_did_product specMappings s = some "AU-DID-10" ↔
      (s.data.length = 8 ∧ "61".data.isPrefixOf s.data = true ∧ didVal s % 10 = 0 ∧
        ¬ didVal s % 100 = 0)) ∧
    (∀ (rd : PyDate) (f : DidRec) (rest : List DidRec),
      determine_did_product specMappings f.did = none →
      process_range specMappings [] rd (f :: rest) = []) ∧
    (∀ (rd : PyDate) (f : DidRec) (rest : List DidRec) (c0 : String),
      determine_did_product specMappings f.did = some c0 →
      ¬((c0 = "AU-DID-100" ∧ 100 ≤ (f :: rest).length) ∨
        (c0 = "AU-DID-10" ∧ 10 ≤ (f :: rest).length)) →
      (∀ it ∈ process_range specMappings [] rd (f :: rest),
        it.range_start = none ∧ it.range_end = none) ∧
      (process_range specMappings [] rd (f :: rest)).map
          (fun it => (it.did, it.did_product)) =
        (f :: rest).filterMap (fun e =>
          (determine_did_product specMappings e.did).map (fun c => (e.did, c)))) := by
  refine ⟨?_, classify_au100_iff, classify_au10_iff, ?_, ?_⟩
  · intro rd f rest
    cases hc : determine_did_product specMappings f.did with
    | none => simp [process_range, hc]
    | some c =>
      by_cases hb : (c = "AU-DID-100" ∧ 100 ≤ (f :: rest).length) ∨
          (c = "AU-DID-10" ∧ 10 ≤ (f :: rest).length)
      · refine iff_of_true ?_ ?_
        · have heq : process_range specMappings [] rd (f :: rest) =
              [{ did := f.did, range_start := some f.did,
                 range_end := some (rest.getLastD f).did, did_product := c,
                 owner_id := f.owner_id, product_name := productName specMappings c,
                 setup := if should_charge_setup f.mod_date rd then
                   (get_product_pricing specMappings [] c f.owner_id).1 else 0,
                 mrc := (get_product_pricing specMappings [] c f.owner_id).2 }] := by
            simp only [process_range, hc]
            rw [if_pos hb]
          exact ⟨_, heq, rfl, rfl⟩
        · rcases hb with ⟨rfl, hlen⟩ | ⟨rfl, hlen⟩
          · exact Or.inl ⟨rfl, hlen⟩
          · exact Or.inr ⟨rfl, hlen⟩
      · refine iff_of_false ?_ ?_
        · rintro ⟨it, heq, hrs, _⟩
          simp only [process_range, hc] at heq
          rw [if_neg hb] at heq
          have hmem : it ∈ (f :: rest).filterMap _ := heq ▸ List.mem_singleton.2 rfl
          rcases List.mem_filterMap.1 hmem with ⟨x, _, hxe⟩
          cases hcx : determine_did_product specMappings x.did with
          | none =>
            rw [hcx] at hxe
            simp at hxe
          | some cx =>
            rw [hcx] at hxe
            simp only [Option.some.injEq] at hxe
            rw [← hxe] at hrs
            simp at hrs
        · rintro (⟨h100, hlen⟩ | ⟨h10, hlen⟩)
          · injection h100 with h100
            exact hb (Or.inl ⟨h100, hlen⟩)
          · injection h10 with h10
            exact hb (Or.inr ⟨h10, hlen⟩)
  · intro rd f rest hc
    simp [process_range, hc]
  · intro rd f rest c0 hc0 hcond
    have hpr : process_range specMappings [] rd (f :: rest) =
        (f :: rest).filterMap (fun entry =>
          match determine_did_product specMappings entry.did with
          | none => none
          | some code => some (Item.mk entry.did none none code entry.owner_id
              (productName specMappings code)
              (if should_charge_setup entry.mod_date rd then
                (get_product_pricing specMappings [] code entry.owner_id).1 else 0)
              (get_product_pricing specMappings [] code entry.owner_id).2)) := by
      simp only [process_range, hc0]
      rw [if_neg hcond]
    constructor
    · intro it hit
      rw [hpr] at hit
      rcases List.mem_filterMap.1 hit with ⟨x, _, hxe⟩
      cases hcx : determine_did_product specMappings x.did with
      | none =>
        rw [hcx] at hxe
        simp at hxe
      | some cx =>
        rw [hcx] at hxe
        simp only [Option.some.injEq] at hxe
        rw [← hxe]
        exact ⟨rfl, rfl⟩
    · rw [hpr, List.map_filterMap]
      refine List.filterMap_congr ?_
      intro e _
      cases hce : determine_did_product specMappings e.did with
      | none => rfl
      | some ce => rfl

/-- Witness for `block_emission_rule`: a run whose first number matches no
rule yields no items, and a non-block one-member run with a classifiable
first number yields its null-range item. -/
theorem block_emission_rule_witness :
    (determine_did_product specMappings (mkRec "99999999" 1).did = none ∧
      determine_did_product specMappings (mkRec "61130005" 1).did = some "AU-DID-1" ∧
      ¬(("AU-DID-1" = "AU-DID-100" ∧
          100 ≤ ([mkRec "61130005" 1] : List DidRec).length) ∨
        ("AU-DID-1" = "AU-DID-10" ∧
          10 ≤ ([mkRec "61130005" 1] : List DidRec).length))) ∧
    process_range specMappings [] ⟨2024, 5, 1⟩
      [mkRec "99999999" 1, mkRec "61130005" 1] = [] ∧
    ((∀ it ∈ process_range specMappings [] ⟨2024, 5, 1⟩ [mkRec "61130005" 1],
        it.range_start = none ∧ it.range_end = none) ∧
      (process_range specMappings [] ⟨2024, 5, 1⟩ [mkRec "61130005" 1]).map
          (fun it => (it.did, it.did_product)) =
        ([mkRec "61130005" 1] : List DidRec).filterMap (fun e =>
          (determine_did_product specMappings e.did).map (fun c => (e.did, c)))) :=
  ⟨⟨by decide, by decide, by decide⟩,
    block_emission_rule.2.2.2.1 ⟨2024, 5, 1⟩ (mkRec "99999999" 1)
      [mkRec "61130005" 1] (by decide),
    block_emission_rule.2.2.2.2 ⟨2024, 5, 1⟩ (mkRec "61130005" 1) []
      "AU-DID-1" (by decide) (by decide)⟩

/-- C2 (counterexample): ten consecutive numbers 61130000..61130009 for
owner 7 — a run of length ≥ 10 whose first number is divisible by 10 (and
by 100) and classifies to a block-eligible product — are emitted as ten
individual items with empty range fields, not as one block item, because
the first number classifies as `AU-DID-100`, whose block threshold is
100. -/
theorem ten_run_at_hundred_boundary_not_a_block :
    (10 ≤ c2run.length ∧ didVal "61130000" % 10 = 0 ∧
      determine_did_product specMappings "61130000" = some "AU-DID-100") ∧
    (identify_ranges specMappings [] ⟨2024, 5, 1⟩ ⟨2024, 5, 1⟩ c2run).length = 10 ∧
    ∀ it ∈ identify_ranges specMappings [] ⟨2024, 5, 1⟩ ⟨2024, 5, 1⟩ c2run,
      it.range_start = none ∧ it.range_end = none := by
  refine ⟨⟨by decide, by decide, by decide⟩, by decide, by decide⟩

/-- C7: an unclassifiable number is non-fatal.  For any run containing a
number matching no rule: (1) no output item carries that number;
(2) the spec-modelled skipped diagnostic counts it; (3) the batch
continues — runs before and after the affected run are processed exactly
as they would be on their own; and (4) within the run itself, when the
individual branch is taken, every classifiable member still receives its
item. -/
theorem unclassifiable_number_nonfatal (m : Mappings) (rows : List PriceRow)
    (rd : PyDate) (entries : List DidRec) (e : DidRec)
    (he : e ∈ entries) (hu : determine_did_product m e.did = none) :
    (∀ it ∈ process_range m rows rd entries, it.did ≠ e.did) ∧
    1 ≤ skipped_diagnostic m entries ∧
    (∀ pre post : List (List DidRec),
      (pre ++ entries :: post).flatMap (process_range m rows rd) =
        pre.flatMap (process_range m rows rd) ++ process_range m rows rd entries ++
          post.flatMap (process_range m rows rd)) ∧
    (∀ f rest, entries = f :: rest → is_block_range m entries = false →
      ∀ c0, determine_did_product m f.did = some c0 →
      ∀ e' ∈ entries, ∀ c, determine_did_product m e'.did = some c →
        ∃ it ∈ process_range m rows rd entries, it.did = e'.did ∧ it.did_product = c) := by
  refine ⟨?_, ?_, ?_, ?_⟩
  · intro it hit hdid
    cases entries with
    | nil => simp [process_range] at hit
    | cons f rest =>
      cases hcf : determine_did_product m f.did with
      | none => simp [process_range, hcf] at hit
      | some c =>
        by_cases hb : (c = "AU-DID-100" ∧ 100 ≤ (f :: rest).length) ∨
            (c = "AU-DID-10" ∧ 10 ≤ (f :: rest).length)
        · simp only [process_range, hcf] at hit
          rw [if_pos hb, List.mem_singleton] at hit
          subst hit
          have hfd : f.did = e.did := hdid
          rw [hfd, hu] at hcf
          cases hcf
        · simp only [process_range, hcf] at hit
          rw [if_neg hb] at hit
          rcases List.mem_filterMap.1 hit with ⟨x, _, hxe⟩
          cases hcx : determine_did_product m x.did with
          | none =>
            rw [hcx] at hxe
            simp at hxe
          | some cx =>
            rw [hcx] at hxe
            simp only [Option.some.injEq] at hxe
            rw [← hxe] at hdid
            have hxd : x.did = e.did := hdid
            rw [hxd, hu] at hcx
            cases hcx
  · have hpos : 0 < skipped_diagnostic m entries :=
      List.countP_pos_iff.2 ⟨e, he, by simp [hu]⟩
    omega
  · intro pre post
    simp [List.flatMap_append]
  · intro f rest hfr hnb c0 hc0 e' he' c hc
    subst hfr
    have hcond : ¬((c0 = "AU-DID-100" ∧ 100 ≤ (f :: rest).length) ∨
        (c0 = "AU-DID-10" ∧ 10 ≤ (f :: rest).length)) := by
      intro h
      have htrue : is_block_range m (f :: rest) = true := by
        simp only [is_block_range, hc0, Bool.or_eq_true, Bool.and_eq_true, beq_iff_eq,
          decide_eq_true_eq]
        tauto
      rw [hnb] at htrue
      cases htrue
    have hmem : (Item.mk e'.did none none c e'.owner_id (productName m c)
        (if should_charge_setup e'.mod_date rd then
          (get_product_pricing m rows c e'.owner_id).1 else 0)
        (get_product_pricing m rows c e'.owner_id).2) ∈
        process_range m rows rd (f :: rest) := by
      simp only [process_range, hc0]
      rw [if_neg hcond]
      refine List.mem_filterMap.2 ⟨e', he', ?_⟩
      rw [hc]
    exact ⟨_, hmem, rfl, rfl⟩

/-- Witness for `unclassifiable_number_nonfatal`: a run with an
unclassifiable number (99990001) and a classifiable one (61130005); the
classifiable one still yields its item. -/
theorem unclassifiable_number_nonfatal_witness :
    (recU ∈ c7entries ∧ determine_did_product specMappings recU.did = none ∧
      is_block_range specMappings c7entries = false ∧
      determine_did_product specMappings (mkRec "99990001" 3).did = none) ∧
    (∀ it ∈ process_range specMappings [] ⟨2024, 4, 1⟩ c7entries, it.did ≠ recU.did) ∧
    1 ≤ skipped_diagnostic specMappings c7entries :=
  ⟨⟨by decide, by decide, by decide, by decide⟩,
    (unclassifiable_number_nonfatal specMappings [] ⟨2024, 4, 1⟩ c7entries recU
      (by decide) (by decide)).1,
    (unclassifiable_number_nonfatal specMappings [] ⟨2024, 4, 1⟩ c7entries recU
      (by decide) (by decide)).2.1⟩

/-- C10: when a run is emitted as a single block, the emitted item depends
only on the first record's modification date: for two runs agreeing on
everything except the modification dates of non-first members (same first
record, same DIDs, owners and creation dates elsewhere), `process_range`
produces identical block items. -/
theorem block_setup_depends_on_first_only (m : Mappings) (rows : List PriceRow)
    (rd : PyDate) (a : DidRec) (r₁ r₂ : List DidRec)
    (hmap : r₁.map stripMod = r₂.map stripMod)
    (hblock : is_block_range m (a :: r₁) = true) :
    process_range m rows rd (a :: r₁) = process_range m rows rd (a :: r₂) := by
  have hlen : r₁.length = r₂.length := by
    have := congrArg List.length hmap
    simpa using this
  have hdid : r₁.map (fun x => x.did) = r₂.map (fun x => x.did) := by
    have := congrArg (List.map Prod.fst) hmap
    simpa [List.map_map, stripMod, Function.comp] using this
  have hlast : (r₁.getLastD a).did = (r₂.getLastD a).did := by
    rw [List.getLastD_eq_getLast?, List.getLastD_eq_getLast?]
    have hmapLast := congrArg List.getLast? hdid
    rw [List.getLast?_map, List.getLast?_map] at hmapLast
    cases h1 : r₁.getLast? with
    | none =>
      rw [h1] at hmapLast
      cases h2 : r₂.getLast? with
      | none => rfl
      | some y => rw [h2] at hmapLast; cases hmapLast
    | some x =>
      rw [h1] at hmapLast
      cases h2 : r₂.getLast? with
      | none => rw [h2] at hmapLast; cases hmapLast
      | some y =>
        rw [h2] at hmapLast
        simpa using hmapLast
  cases hca : determine_did_product m a.did with
  | none => simp [is_block_range, hca] at hblock
  | some c =>
    have hcond : (c = "AU-DID-100" ∧ 100 ≤ (a :: r₁).length) ∨
        (c = "AU-DID-10" ∧ 10 ≤ (a :: r₁).length) := by
      simp only [is_block_range, hca, Bool.or_eq_true, Bool.and_eq_true, beq_iff_eq,
        decide_eq_true_eq] at hblock
      exact hblock
    have hcond₂ : (c = "AU-DID-100" ∧ 100 ≤ (a :: r₂).length) ∨
        (c = "AU-DID-10" ∧ 10 ≤ (a :: r₂).length) := by
      rcases hcond with ⟨h1, h2⟩ | ⟨h1, h2⟩
      · exact Or.inl ⟨h1, by simp only [List.length_cons, ← hlen]; exact h2⟩
      · exact Or.inr ⟨h1, by simp only [List.length_cons, ← hlen]; exact h2⟩
    simp only [process_range, hca]
    rw [if_pos hcond, if_pos hcond₂, hlast]

/-- Witness for `block_setup_depends_on_first_only`: the ten-run
61130010..61130019 with and without a modification date on its second
member yields the same block item. -/
theorem block_setup_depends_on_first_only_witness :
    (c10rest1.map stripMod = c10rest2.map stripMod ∧
      is_block_range specMappings (c10first :: c10rest1) = true) ∧
    process_range specMappings [] ⟨2024, 4, 1⟩ (c10first :: c10rest1) =
      process_range specMappings [] ⟨2024, 4, 1⟩ (c10first :: c10rest2) :=
  ⟨⟨by decide, by decide⟩,
    block_setup_depends_on_first_only specMappings [] ⟨2024, 4, 1⟩ c10first
      c10rest1 c10rest2 (by decide) (by decide)⟩

end DidBill
